import Mathlib

/-
Shallow embedding of the astranet_cli repository (src/astranet_cli), covering
the configuration store (CockroachManager.load_config / save_config), the
schema migration engine (MigrationManager), and the error-handling paths of
CockroachManager.init_cluster and CockroachManager.stop_ca_server.

Python strings are modelled as `List Char` (code points), Python ints as
`Int`/`Nat`, JSON documents as association lists, and external commands
(self.crdb.run_command / subprocess) as explicit outcome parameters: a run
either completes with (returncode, stdout, stderr) or raises an exception.
-/

/-- Character-list representation of a string literal; Python strings are
modelled as `List Char` throughout this development. -/
def toPy (s : String) : List Char := s.data

/-- ASCII whitespace recognizer: the characters stripped from both ends by
Python's str.strip() and tolerated around int() arguments (ASCII subset of
Python's notion of whitespace; no input considered here uses more). -/
def isSpaceChar (c : Char) : Bool := c = ' ' || c = '\t' || c = '\n' || c = '\r'

/-- Decimal digit recognizer (ASCII subset of Python's str.isdigit). -/
def isDigitChar (c : Char) : Bool := '0' ≤ c && c ≤ '9'

/-- Numeric value of a decimal digit string, most significant digit first. -/
def digitsVal (s : List Char) : Nat :=
  s.foldl (fun n c => 10 * n + (c.toNat - '0'.toNat)) 0

/-- Python str.strip(): drop whitespace from both ends. -/
def pyStripWs (s : List Char) : List Char :=
  ((s.dropWhile isSpaceChar).reverse.dropWhile isSpaceChar).reverse

/-- Python str.isdigit(): nonempty and all decimal digits (ASCII subset). -/
def pyIsDigit (s : List Char) : Bool := !s.isEmpty && s.all isDigitChar

/-- Python int(s): strips surrounding whitespace, accepts one optional leading
sign followed by at least one decimal digit; `none` models ValueError.  (ASCII
subset; underscore digit-grouping never reaches this parser in the source
because every argument is the part of a filename stem before the first
underscore.) -/
def pyParseInt (s : List Char) : Option Int :=
  match pyStripWs s with
  | [] => none
  | c :: rest =>
    if c = '+' then if pyIsDigit rest then some ((digitsVal rest : Int)) else none
    else if c = '-' then if pyIsDigit rest then some (-(digitsVal rest : Int)) else none
    else if pyIsDigit (c :: rest) then some ((digitsVal (c :: rest) : Int)) else none

/-- Helper for Python's substring test: `pat` is a prefix of `hay`. -/
def isPrefixB : List Char → List Char → Bool
  | [], _ => true
  | _ :: _, [] => false
  | a :: as, b :: bs => a == b && isPrefixB as bs

/-- Python's substring containment test `pat in hay`. -/
def containsSub : List Char → List Char → Bool
  | [], pat => isPrefixB pat []
  | c :: t, pat => isPrefixB pat (c :: t) || containsSub t pat

/-- Outcome of one external command dispatched through run_command: it either
completes with (returncode, stdout, stderr) or raises a Python exception whose
message is recorded. -/
inductive RunOutcome where
  | completed : Int → List Char → List Char → RunOutcome
  | raised : List Char → RunOutcome
deriving DecidableEq, Repr

/-- JSON values as needed by the persisted configuration document.  Arrays in
the stored configuration only ever hold strings (cluster_nodes), so array
elements are restricted to strings; the merge and lookup logic proved below
never inspects values. -/
inductive JVal where
  | jnull : JVal
  | jbool : Bool → JVal
  | jnum : Int → JVal
  | jstr : List Char → JVal
  | jarr : List (List Char) → JVal
deriving DecidableEq, Repr

/-- Keys of JSON objects (Python str). -/
abbrev Key := List Char

/-- One named sub-section of the configuration document: a JSON object of
scalar/array fields, as a key-value association list in insertion order. -/
abbrev Sect := List (Key × JVal)

/-- The full on-disk document: a JSON object mapping section names to
sub-sections, as a key-value association list in insertion order.  (config.json
as written by save_config always has this two-level shape.) -/
abbrev Doc := List (Key × Sect)

/-- First-match association lookup, modelling Python dict indexing / .get on a
parsed JSON object (dict keys are unique in any parsed document, and the
first-match convention makes the model total on arbitrary association
lists). -/
def alookup {β : Type} (k : Key) : List (Key × β) → Option β
  | [] => none
  | (k', v) :: t => if k' = k then some v else alookup k t

/-- Python dict.update(upd) on an association list: every existing key keeps
its position, keys present in `upd` take their new value, and keys of `upd`
not present yet are appended in order. -/
def dict_update {β : Type} (old upd : List (Key × β)) : List (Key × β) :=
  old.map (fun p => match alookup p.1 upd with
                    | some v => (p.1, v)
                    | none => p)
    ++ upd.filter (fun p => (alookup p.1 old).isNone)

/-- Python dict assignment d[k] = v on an association list: replace the value
in place when the key exists, append otherwise. -/
def doc_set (d : Doc) (k : Key) (v : Sect) : Doc :=
  if (alookup k d).isSome then d.map (fun p => (p.1, if p.1 = k then v else p.2))
  else d ++ [(k, v)]

/-- On-disk state of config.json: `none` = file absent; `some none` = file
present but json.load raises (unreadable, unparseable, or a non-object top
level, all of which reach the same except branch); `some (some d)` = the file
parses to the document d. -/
abbrev FileState := Option (Option Doc)

namespace CockroachManager

/-- The section name under which CockroachManager persists its settings. -/
def ckey : Key := toPy "cockroachdb"

/-- Built-in defaults of CockroachManager.load_config
(src/astranet_cli/cockroach_manager.py lines 38-46). -/
def default_config : Sect :=
  [(toPy "sql_port", JVal.jnum 26257),
   (toPy "http_port", JVal.jnum 8080),
   (toPy "domain", JVal.jstr (toPy "astranet.local")),
   (toPy "cluster_nodes", JVal.jarr []),
   (toPy "database_name", JVal.jstr (toPy "defaultdb")),
   (toPy "admin_user", JVal.jstr (toPy "admin")),
   (toPy "admin_password", JVal.jstr (toPy "astranet2026"))]

/-- Error message attached to the modelled json.load failure. -/
def loadErr : List Char := toPy "json.load raised"

/-- Body of the try block in load_config, given the parse result of an
existing config.json: json.load either raises (`Except.error`) or yields a
document, from which the cockroachdb sub-section is taken with
default_config as the .get default. -/
def load_body : Option Doc → Except (List Char) Sect
  | none => Except.error loadErr
  | some d => Except.ok ((alookup ckey d).getD default_config)

/-- CockroachManager.load_config (lines 36-57).  Returns the configuration
together with a flag recording whether the warning branch (the except handler)
ran.  A missing file returns the defaults without warning; a present file runs
the try body, and any exception is caught, warned about, and replaced by the
defaults. -/
def load_config : FileState → Sect × Bool
  | none => (default_config, false)
  | some p =>
    match load_body p with
    | Except.ok s => (s, false)
    | Except.error _ => (default_config, true)

/-- CockroachManager.save_config (lines 59-83).  Reads the existing full
document (empty when the file is absent), inserts an empty cockroachdb
sub-section when none exists, dict.update-merges the supplied fields into
that sub-section only, and writes the full document back.  Any exception in
the try block (here: json.load raising on an unreadable file) is caught and
reported as False with nothing written.  Returns (returned bool, resulting
file state). -/
def save_config (fs : FileState) (config : Sect) : Bool × FileState :=
  match fs with
  | some none => (false, fs)
  | _ =>
    let full : Doc := match fs with
                      | some (some d) => d
                      | _ => []
    let oldSect : Sect := (alookup ckey full).getD []
    let merged : Sect := dict_update oldSect config
    (true, some (some (doc_set full ckey merged)))

/-- The document stored in a file state, as the try block of save_config sees
it: empty when the file is absent; unspecified (empty) on the exception path,
which save_config never reaches the merge from. -/
def docOf : FileState → Doc
  | some (some d) => d
  | _ => []

/-- The stored cockroachdb sub-section of a file state, defaulting to the
empty object exactly as save_config initializes it. -/
def sectOf (fs : FileState) : Sect := (alookup ckey (docOf fs)).getD []

/-- Merge behaviour asserted of save_config on a prior file state that the
try block reads successfully: the call returns True; the resulting document
is the prior document with only the cockroachdb sub-section replaced by the
dict.update merge; every other section is unchanged; and a load after the
save returns the merged sub-section, in which every field absent from the
update keeps its previous stored value and every supplied field has its new
value. -/
def merge_spec (fs : FileState) (config : Sect) : Prop :=
  (save_config fs config).1 = true ∧
  (save_config fs config).2
    = some (some (doc_set (docOf fs) ckey (dict_update (sectOf fs) config))) ∧
  (∀ k, k ≠ ckey → alookup k (docOf (save_config fs config).2) = alookup k (docOf fs)) ∧
  (load_config (save_config fs config).2).1 = dict_update (sectOf fs) config ∧
  (∀ fk, alookup fk config = none →
    alookup fk (load_config (save_config fs config).2).1 = alookup fk (sectOf fs)) ∧
  (∀ fk v, alookup fk config = some v →
    alookup fk (load_config (save_config fs config).2).1 = some v)

/-- Substring of the tool's stderr by which init_cluster recognizes an
already-initialized cluster (line 874). -/
def already_init_msg : List Char := toPy "cluster has already been initialized"

/-- CockroachManager.init_cluster (lines 853-885), abstracted over the outcome
of the driven `cockroach init` command and over the result of the chained
create_database step (which is reported but never affects the return value).
Exit code 0 returns True; a non-zero exit returns True exactly when stderr
contains already_init_msg; an exception is caught and returns False. -/
def init_cluster (outcome : RunOutcome) (_dbCreateOk : Bool) : Bool :=
  match outcome with
  | RunOutcome.raised _ => false
  | RunOutcome.completed rc _ stderrOut =>
    if rc = 0 then true
    else if containsSub stderrOut already_init_msg then true
    else false

/-- Result of CockroachManager.stop_ca_server: the returned bool, whether a
kill signal was issued, and the PID file contents afterwards. -/
structure StopResult where
  success : Bool
  signalSent : Bool
  pidFileAfter : Option (List Char)
deriving DecidableEq, Repr

/-- CockroachManager.stop_ca_server (lines 569-587), abstracted over the PID
file contents (none = no ca_server.pid) and the exit code of the issued
`kill`.  With no PID file it warns that the server is not running and returns
False without sending any signal; otherwise it kills the recorded PID,
unlinking the PID file and returning True only when kill exits 0. -/
def stop_ca_server (pidFile : Option (List Char)) (killRC : Int) : StopResult :=
  match pidFile with
  | none => ⟨false, false, none⟩
  | some pid =>
    if killRC = 0 then ⟨true, true, none⟩
    else ⟨false, true, some pid⟩

end CockroachManager

namespace MigrationManager

/-- A migration file is represented by its stem (the file name with the final
".sql" removed, as Path.stem yields it). -/
abbrev Stem := List Char

/-- Leading component of a stem before the first underscore: the value of
`migration_file.stem.split('_')[0]` in the source. -/
def stemPrefix (stem : Stem) : List Char := stem.takeWhile (fun c => c ≠ '_')

/-- Version parsed from a stem by `int(migration_file.stem.split('_')[0])`;
`none` models the ValueError branch.  (The IndexError alternative in the
source's except clause is unreachable: str.split always yields at least one
component.) -/
def stemVersion (stem : Stem) : Option Int := pyParseInt (stemPrefix stem)

/-- Ordering in which sorted() ranks the glob("*.sql") results: Path
comparison is string comparison of the full paths, which share the directory
prefix, so files are ranked by their names stem ++ ".sql" (code-point
lexicographic). -/
def nameLe (a b : Stem) : Prop := a ++ toPy ".sql" ≤ b ++ toPy ".sql"

instance : DecidableRel nameLe := fun a b => inferInstanceAs (Decidable (_ ≤ _))

instance : IsTotal Stem nameLe := ⟨fun a b => le_total (a ++ toPy ".sql") (b ++ toPy ".sql")⟩

instance : IsTrans Stem nameLe := ⟨fun _ _ _ h1 h2 => le_trans h1 h2⟩

instance : IsAntisymm Stem nameLe :=
  ⟨fun _ _ h1 h2 => List.append_cancel_right (le_antisymm h1 h2)⟩

/-- Key ordering used by `sorted(migrations, key=lambda x: x[0])`: compare
pending entries by version only (Python's sort is stable, as is the stable
sort modelling it below). -/
def verLe (p q : Int × Stem) : Prop := p.1 ≤ q.1

instance : DecidableRel verLe := fun p q => inferInstanceAs (Decidable (_ ≤ _))

instance : IsTotal (Int × Stem) verLe := ⟨fun p q => le_total p.1 q.1⟩

instance : IsTrans (Int × Stem) verLe := ⟨fun _ _ _ h1 h2 => le_trans h1 h2⟩

/-- Loop body of get_pending_migrations (lines 53-63) over the name-sorted
file list: each file is parsed; a parsed version strictly above the current
version is collected, a parse failure is reported with a warning and skipped,
and anything else is skipped silently.  Returns (collected entries in
iteration order, files warned about in iteration order). -/
def pendingScan (cur : Nat) : List Stem → List (Int × Stem) × List Stem
  | [] => ([], [])
  | s :: rest =>
    let r := pendingScan cur rest
    match stemVersion s with
    | some v => if (cur : Int) < v then ((v, s) :: r.1, r.2) else r
    | none => (r.1, s :: r.2)

/-- MigrationManager.get_pending_migrations (lines 44-65), abstracted over the
current schema version (get_current_version always yields a non-negative int)
and the stems present in the migrations directory, in whatever order the
filesystem yields them.  The glob results are first ranked by name by
sorted(), each is parsed and filtered by the loop, and the collected entries
are finally sorted ascending by version (stably).  Returns (pending entries,
files warned about). -/
def get_pending_migrations (cur : Nat) (stems : List Stem) :
    List (Int × Stem) × List Stem :=
  let scanned := pendingScan cur (List.insertionSort nameLe stems)
  (List.insertionSort verLe scanned.1, scanned.2)

/-- State of the staging file ~/.astranet/migration_<version>.sql. -/
structure TempState where
  tempFile : Option (List Char)
deriving DecidableEq, Repr

/-- Contents written to the staging file before execution:
"USE <database_name>;\n" followed by the migration file's text (line 82). -/
def staged_sql (dbName sqlContent : List Char) : List Char :=
  toPy "USE " ++ dbName ++ toPy ";\n" ++ sqlContent

/-- Staging-file state right after temp_sql.write_text and before the try
block runs the migration. -/
def staging (dbName sqlContent : List Char) : TempState :=
  ⟨some (staged_sql dbName sqlContent)⟩

/-- MigrationManager.apply_migration (lines 67-101), abstracted over the
database name, the migration file's text, and the outcome of the
`cockroach sql < tempfile` command.  The staging file is written before the
try block; the try body returns True on exit code 0 and False otherwise, and
an exception propagates as Except.error; the finally clause deletes the
staging file when it exists on every one of those paths.  Returns (outcome of
the call: returned bool or propagated exception, staging-file state after). -/
def apply_migration (dbName sqlContent : List Char) (outcome : RunOutcome) :
    Except (List Char) Bool × TempState :=
  let written : TempState := staging dbName sqlContent
  let step : Except (List Char) Bool × TempState :=
    match outcome with
    | RunOutcome.completed rc _ _ => (Except.ok (decide (rc = 0)), written)
    | RunOutcome.raised e => (Except.error e, written)
  (step.1, if step.2.tempFile.isSome then ⟨none⟩ else step.2)

/-- Result of MigrationManager.migrate: the returned bool, the pending entries
on which apply_migration was invoked in order, and the version reported as
halting progress (printed by line 117) when a migration failed. -/
structure MigrateResult where
  success : Bool
  attempted : List (Int × Stem)
  halted : Option Int
deriving DecidableEq, Repr

/-- Loop of MigrationManager.migrate (lines 113-118) over the pending list,
abstracted over whether apply_migration succeeds on each entry: every entry is
attempted in order until the first failure, which is recorded and stops the
loop. -/
def migrateGo (apply : Int → Stem → Bool) :
    List (Int × Stem) → List (Int × Stem) × Option Int
  | [] => ([], none)
  | (v, f) :: rest =>
    if apply v f then
      let r := migrateGo apply rest
      ((v, f) :: r.1, r.2)
    else ([(v, f)], some v)

/-- MigrationManager.migrate (lines 103-123) on an explicit pending list: an
empty list reports success immediately; otherwise the loop runs and the
overall success flag is cleared exactly when some migration failed. -/
def migrateRun (apply : Int → Stem → Bool) (pending : List (Int × Stem)) :
    MigrateResult :=
  match pending with
  | [] => ⟨true, [], none⟩
  | _ =>
    let r := migrateGo apply pending
    ⟨r.2.isNone, r.1, r.2⟩

/-- MigrationManager.migrate composed with get_pending_migrations, abstracted
over the current version, the directory contents, and the per-migration
success of apply_migration. -/
def migrate (apply : Int → Stem → Bool) (cur : Nat) (stems : List Stem) :
    MigrateResult :=
  migrateRun apply (get_pending_migrations cur stems).1

/-- Python f-string "{n:03d}" for the non-negative versions used by
create_migration: decimal digits zero-padded to width at least 3. -/
def pad3 (n : Nat) : List Char :=
  let ds := Nat.toDigits 10 n
  List.replicate (3 - ds.length) '0' ++ ds

/-- MigrationManager.create_migration (lines 125-159), abstracted over the
current schema version and the stems in the migrations directory.  The next
version starts at current + 1; when the directory is nonempty, the maximum is
taken over `int(f.stem.split('_')[0])` of the files whose prefix satisfies
isdigit, and the next version becomes the larger of the two candidates — but
when the directory is nonempty and no file has an all-digit prefix, the
source's `max([])` raises ValueError, modelled by `none`.  Returns the new
version together with the stem of the file written. -/
def create_migration (cur : Nat) (stems : List Stem) (name : List Char) :
    Option (Nat × Stem) :=
  let next0 : Nat := cur + 1
  if stems.isEmpty then some (next0, pad3 next0 ++ '_' :: name)
  else
    let nums := stems.filterMap
      (fun f => if pyIsDigit (stemPrefix f) then some (digitsVal (stemPrefix f)) else none)
    match nums with
    | [] => none
    | n :: ns =>
      let lastNumber := ns.foldl max n
      let nv := max next0 (lastNumber + 1)
      some (nv, pad3 nv ++ '_' :: name)

/-- MigrationManager.get_current_version (lines 19-42), abstracted over the
outcome of the `SELECT COALESCE(MAX(version), 0)` query: when the command
exits 0 with nonempty stdout, the first stripped line consisting only of
digits is parsed; otherwise 0.  The result is always non-negative, which is
why the other operations take the current version as a Nat. -/
def firstDigitLine : List (List Char) → Nat
  | [] => 0
  | l :: ls =>
    let t := pyStripWs l
    if pyIsDigit t then digitsVal t else firstDigitLine ls

/-- Python str.split(sep) for a one-character separator: every occurrence
splits, and the empty string yields one empty component. -/
def pySplitChar (sep : Char) : List Char → List (List Char)
  | [] => [[]]
  | c :: cs =>
    match pySplitChar sep cs with
    | [] => [[]]
    | h :: t => if c = sep then [] :: h :: t else (c :: h) :: t

/-- MigrationManager.get_current_version as a function of the query
outcome. -/
def get_current_version (returncode : Int) (stdout : List Char) : Nat :=
  if returncode = 0 ∧ stdout ≠ [] then
    firstDigitLine (pySplitChar '\n' (pyStripWs stdout))
  else 0

end MigrationManager

/-
Lemmas about the association-list model of Python dicts.
-/

theorem alookup_nil {β : Type} (k : Key) : alookup (β := β) k [] = none := rfl

theorem alookup_append_some {β : Type} {k : Key} {a : List (Key × β)} {v : β}
    (h : alookup k a = some v) (b : List (Key × β)) :
    alookup k (a ++ b) = some v := by
  induction a with
  | nil => simp [alookup] at h
  | cons p t ih =>
    obtain ⟨k', w⟩ := p
    by_cases hk : k' = k
    · simpa [alookup, hk] using h
    · simp only [alookup, if_neg hk] at h ⊢
      exact ih h

theorem alookup_append_none {β : Type} {k : Key} {a : List (Key × β)}
    (h : alookup k a = none) (b : List (Key × β)) :
    alookup k (a ++ b) = alookup k b := by
  induction a with
  | nil => rfl
  | cons p t ih =>
    obtain ⟨k', w⟩ := p
    by_cases hk : k' = k
    · simp [alookup, hk] at h
    · simp only [alookup, if_neg hk] at h ⊢
      exact ih h

theorem alookup_map_override {β : Type} (k : Key) (upd : List (Key × β)) :
    ∀ old : List (Key × β),
      alookup k (old.map (fun p => match alookup p.1 upd with
                                   | some v => (p.1, v)
                                   | none => p))
        = (alookup k old).map (fun w => (alookup k upd).getD w) := by
  intro old
  induction old with
  | nil => rfl
  | cons p t ih =>
    obtain ⟨k', w⟩ := p
    by_cases hk : k' = k
    · subst hk
      cases hu : alookup k' upd <;> simp [alookup, hu]
    · cases hu : alookup k' upd <;> simp [alookup, hu, if_neg hk, ih]

theorem alookup_filter_fresh_of_some {β : Type} {k : Key} {old : List (Key × β)} {w : β}
    (h : alookup k old = some w) (upd : List (Key × β)) :
    alookup k (upd.filter (fun p => (alookup p.1 old).isNone)) = none := by
  induction upd with
  | nil => rfl
  | cons p t ih =>
    obtain ⟨k'', u⟩ := p
    by_cases hk : k'' = k
    · subst hk
      simp [List.filter_cons, h, ih]
    · simp only [List.filter_cons]
      by_cases hp : (alookup k'' old).isNone = true
      · simp [hp, alookup, if_neg hk, ih]
      · simp [hp, ih]

theorem alookup_filter_fresh_of_none {β : Type} {k : Key} {old : List (Key × β)}
    (h : alookup k old = none) (upd : List (Key × β)) :
    alookup k (upd.filter (fun p => (alookup p.1 old).isNone)) = alookup k upd := by
  induction upd with
  | nil => rfl
  | cons p t ih =>
    obtain ⟨k'', u⟩ := p
    by_cases hk : k'' = k
    · subst hk
      simp [List.filter_cons, h, alookup, ih]
    · simp only [List.filter_cons]
      by_cases hp : (alookup k'' old).isNone = true
      · simp [hp, alookup, if_neg hk, ih]
      · simp [hp, alookup, if_neg hk, ih]

theorem alookup_dict_update_some {β : Type} {k : Key} {upd : List (Key × β)} {v : β}
    (h : alookup k upd = some v) (old : List (Key × β)) :
    alookup k (dict_update old upd) = some v := by
  unfold dict_update
  cases ho : alookup k old with
  | none =>
    rw [alookup_append_none (by rw [alookup_map_override, ho]; rfl)]
    rw [alookup_filter_fresh_of_none ho]
    exact h
  | some w =>
    refine alookup_append_some ?_ _
    rw [alookup_map_override, ho]
    simp [h]

theorem alookup_dict_update_none {β : Type} {k : Key} {upd : List (Key × β)}
    (h : alookup k upd = none) (old : List (Key × β)) :
    alookup k (dict_update old upd) = alookup k old := by
  unfold dict_update
  cases ho : alookup k old with
  | none =>
    rw [alookup_append_none (by rw [alookup_map_override, ho]; rfl)]
    rw [alookup_filter_fresh_of_none ho]
    exact h
  | some w =>
    rw [alookup_append_some (v := w) ?_ _]
    rw [alookup_map_override, ho]
    simp [h]

theorem alookup_map_setval {β : Type} (k tgt : Key) (v : β) :
    ∀ l : List (Key × β),
      alookup k (l.map (fun p => (p.1, if p.1 = tgt then v else p.2)))
        = (alookup k l).map (fun w => if k = tgt then v else w) := by
  intro l
  induction l with
  | nil => rfl
  | cons p t ih =>
    obtain ⟨k1, w⟩ := p
    by_cases hk : k1 = k
    · subst hk
      simp [alookup]
    · simp [alookup, if_neg hk, ih]

theorem alookup_doc_set_self (d : Doc) (k : Key) (v : Sect) :
    alookup k (doc_set d k v) = some v := by
  unfold doc_set
  by_cases h : (alookup k d).isSome
  · rw [if_pos h, alookup_map_setval]
    cases hd : alookup k d with
    | none => rw [hd] at h; simp at h
    | some w => simp
  · rw [if_neg h]
    rw [alookup_append_none (by simpa using h)]
    simp [alookup]

theorem alookup_doc_set_other {k' k : Key} (h : k ≠ k') (d : Doc) (v : Sect) :
    alookup k (doc_set d k' v) = alookup k d := by
  unfold doc_set
  by_cases hs : (alookup k' d).isSome
  · rw [if_pos hs, alookup_map_setval]
    cases alookup k d with
    | none => rfl
    | some w => simp [if_neg h]
  · rw [if_neg hs]
    cases hd : alookup k d with
    | none =>
      rw [alookup_append_none hd]
      have hne : ¬ (k' = k) := fun hh => h hh.symm
      simp [alookup, hne]
    | some w => exact alookup_append_some hd _

open CockroachManager in
theorem load_of_doc_set (d : Doc) (m : Sect) :
    (load_config (some (some (doc_set d ckey m)))).1 = m := by
  show (alookup ckey (doc_set d ckey m)).getD default_config = m
  rw [alookup_doc_set_self]
  rfl

open CockroachManager in
theorem merge_spec_of_doc (d : Doc) (config : Sect)
    (hsv : (save_config (some (some d)) config).1 = true ∧
      (save_config (some (some d)) config).2
        = some (some (doc_set d ckey (dict_update ((alookup ckey d).getD []) config)))) :
    (save_config (some (some d)) config).1 = true ∧
    (save_config (some (some d)) config).2
      = some (some (doc_set d ckey (dict_update ((alookup ckey d).getD []) config))) ∧
    (∀ k, k ≠ ckey →
      alookup k (docOf (save_config (some (some d)) config).2) = alookup k d) ∧
    (load_config (save_config (some (some d)) config).2).1
      = dict_update ((alookup ckey d).getD []) config ∧
    (∀ fk, alookup fk config = none →
      alookup fk (load_config (save_config (some (some d)) config).2).1
        = alookup fk ((alookup ckey d).getD [])) ∧
    (∀ fk v, alookup fk config = some v →
      alookup fk (load_config (save_config (some (some d)) config).2).1 = some v) := by
  obtain ⟨h1, h2⟩ := hsv
  have hload : (load_config (save_config (some (some d)) config).2).1
      = dict_update ((alookup ckey d).getD []) config := by
    rw [h2]; exact load_of_doc_set _ _
  refine ⟨h1, h2, ?_, hload, ?_, ?_⟩
  · intro k hk
    rw [h2]
    exact alookup_doc_set_other hk d _
  · intro fk hfk
    rw [hload]
    exact alookup_dict_update_none hfk _
  · intro fk v hfk
    rw [hload]
    exact alookup_dict_update_some hfk _

/-- C3: for every partial configuration update applied to a prior file state
that the try block can read (the file is absent or parses), save_config
returns True and merges only the supplied fields into the cockroachdb
sub-section of the on-disk document: after save followed by load, every field
of the sub-section not present in the update keeps its previous stored value,
every supplied field holds its new value, and every section of the document
other than cockroachdb is unchanged. -/
theorem save_config_merges (fs : FileState) (config : Sect)
    (hfs : fs ≠ some none) : CockroachManager.merge_spec fs config := by
  cases fs with
  | none => exact merge_spec_of_doc [] config ⟨rfl, rfl⟩
  | some p =>
    cases p with
    | none => exact absurd rfl hfs
    | some d => exact merge_spec_of_doc d config ⟨rfl, rfl⟩

/-- Witness for C3: a concrete document holding a foreign section and a
two-field cockroachdb section, updated in a single field. -/
theorem save_config_merges_witness :
    (some (some [(toPy "k8s", [(toPy "ver", JVal.jnum 1)]),
       (CockroachManager.ckey,
        [(toPy "sql_port", JVal.jnum 26257), (toPy "domain", JVal.jstr (toPy "a"))])])
      : FileState) ≠ some none ∧
    CockroachManager.merge_spec
      (some (some [(toPy "k8s", [(toPy "ver", JVal.jnum 1)]),
        (CockroachManager.ckey,
         [(toPy "sql_port", JVal.jnum 26257), (toPy "domain", JVal.jstr (toPy "a"))])]))
      [(toPy "domain", JVal.jstr (toPy "b"))] :=
  ⟨by simp, save_config_merges _ _ (by simp)⟩

/-- C5 counterexample: the claim asserts that load_config fills in the
built-in default for every field missing from the stored cluster sub-section;
on a document whose cockroachdb sub-section holds only sql_port, load_config
returns that sub-section verbatim, with no http_port field at all, although
the built-in default for http_port is 8080. -/
theorem load_config_counterexample :
    (CockroachManager.load_config
        (some (some [(CockroachManager.ckey, [(toPy "sql_port", JVal.jnum 1)])]))).1
      = [(toPy "sql_port", JVal.jnum 1)] ∧
    alookup (toPy "http_port")
        (CockroachManager.load_config
          (some (some [(CockroachManager.ckey, [(toPy "sql_port", JVal.jnum 1)])]))).1
      = none ∧
    alookup (toPy "http_port") CockroachManager.default_config
      = some (JVal.jnum 8080) := by
  refine ⟨rfl, rfl, ?_⟩
  decide

/-- C5 amended: load_config never fails when the configuration file is
absent, returning the complete built-in defaults; the defaults are likewise
returned when the file cannot be parsed or when the parsed document has no
cockroachdb sub-section at all; but a present sub-section is returned exactly
as stored — fields missing from it are not filled in with defaults by
load_config (callers apply per-field defaults at each use site instead). -/
theorem load_config_defaults :
    (CockroachManager.load_config none).1 = CockroachManager.default_config ∧
    (CockroachManager.load_config (some none)).1 = CockroachManager.default_config ∧
    (∀ d : Doc, alookup CockroachManager.ckey d = none →
      (CockroachManager.load_config (some (some d))).1
        = CockroachManager.default_config) ∧
    (∀ (d : Doc) (s : Sect), alookup CockroachManager.ckey d = some s →
      (CockroachManager.load_config (some (some d))).1 = s) := by
  refine ⟨rfl, rfl, ?_, ?_⟩
  · intro d hd
    show (alookup CockroachManager.ckey d).getD CockroachManager.default_config = _
    rw [hd]
    rfl
  · intro d s hd
    show (alookup CockroachManager.ckey d).getD CockroachManager.default_config = s
    rw [hd]
    rfl

/-- Witness for C5 (amended): a stored sub-section is returned verbatim. -/
theorem load_config_defaults_witness :
    alookup CockroachManager.ckey
        [(toPy "k8s", ([] : Sect)),
         (CockroachManager.ckey, [(toPy "sql_port", JVal.jnum 9)])]
      = some [(toPy "sql_port", JVal.jnum 9)] ∧
    (CockroachManager.load_config
        (some (some [(toPy "k8s", ([] : Sect)),
          (CockroachManager.ckey, [(toPy "sql_port", JVal.jnum 9)])]))).1
      = [(toPy "sql_port", JVal.jnum 9)] :=
  ⟨by decide, load_config_defaults.2.2.2 _ _ (by decide)⟩

/-- C10: load_config is total over arbitrary contents of an existing
configuration file: the try body raises exactly on the contents that fail to
read or parse, and in that case the exception is caught, the warning branch
runs, and the complete built-in default configuration is returned; the
warning branch runs on no other input. -/
theorem load_config_total :
    CockroachManager.load_body none = Except.error CockroachManager.loadErr ∧
    CockroachManager.load_config (some none)
      = (CockroachManager.default_config, true) ∧
    (∀ p : Option Doc, (CockroachManager.load_config (some p)).2 = p.isNone) := by
  refine ⟨rfl, rfl, ?_⟩
  intro p
  cases p <;> rfl

/-- C6: apply_migration writes the staged statements (the USE preamble plus
the migration file's text) to the staging file before execution, and on every
exit path of the execution — exit code 0, non-zero exit code, or an exception
raised by the command — the finally clause has deleted the staging file by
the time the call returns; the call returns True exactly on exit code 0 and
re-raises a raised exception. -/
theorem apply_migration_cleanup (db sql : List Char) (rc : Int)
    (out err e : List Char) :
    (MigrationManager.staging db sql).tempFile
      = some (MigrationManager.staged_sql db sql) ∧
    (MigrationManager.apply_migration db sql
        (RunOutcome.completed rc out err)).2.tempFile = none ∧
    (MigrationManager.apply_migration db sql (RunOutcome.raised e)).2.tempFile
      = none ∧
    (MigrationManager.apply_migration db sql (RunOutcome.completed rc out err)).1
      = Except.ok (decide (rc = 0)) ∧
    (MigrationManager.apply_migration db sql (RunOutcome.raised e)).1
      = Except.error e :=
  ⟨rfl, rfl, rfl, rfl, rfl⟩

/-- C8: when the driven `cockroach init` exits non-zero, init_cluster returns
True exactly when the tool's stderr contains the already-initialized
substring, so an already-initialized cluster is reported as success and every
other non-zero exit as failure. -/
theorem init_cluster_idempotent (rc : Int) (out err : List Char) (db : Bool)
    (h : rc ≠ 0) :
    CockroachManager.init_cluster (RunOutcome.completed rc out err) db
      = containsSub err CockroachManager.already_init_msg := by
  show (if rc = 0 then true
        else if containsSub err CockroachManager.already_init_msg then true
        else false) = _
  rw [if_neg h]
  cases hc : containsSub err CockroachManager.already_init_msg <;> simp

/-- Witness for C8: exit code 1 with the already-initialized message in
stderr yields success; the same exit code with an unrelated message yields
failure (checked directly on the substring test). -/
theorem init_cluster_idempotent_witness :
    ((1 : Int) ≠ 0 ∧
      CockroachManager.init_cluster
          (RunOutcome.completed 1 []
            (toPy "ERROR: cluster has already been initialized"))
          true
        = containsSub (toPy "ERROR: cluster has already been initialized")
            CockroachManager.already_init_msg) ∧
    containsSub (toPy "ERROR: cluster has already been initialized")
        CockroachManager.already_init_msg = true ∧
    containsSub (toPy "ERROR: connection refused")
        CockroachManager.already_init_msg = false :=
  ⟨⟨by decide, init_cluster_idempotent 1 [] _ true (by decide)⟩, by decide, by decide⟩

/-- C9 counterexample: the claim asserts that with no PID file the stop
operation is reported as already-stopped and treated as the desired state
rather than an error; the source instead returns False — the same failure
value as the genuine error path — after printing the not-running warning, so
the returned success flag is not true. -/
theorem stop_ca_server_counterexample :
    CockroachManager.stop_ca_server none 0
      = ⟨false, false, none⟩ ∧
    ¬ ((CockroachManager.stop_ca_server none 0).success = true) ∧
    (CockroachManager.stop_ca_server (some (toPy "123")) 1).success = false :=
  ⟨rfl, by decide, rfl⟩

/-- C9 amended: when no PID file is present, stop_ca_server sends no
termination signal, leaves no PID file behind, and returns False — it fails
cleanly with a not-running report rather than treating the state as
success. -/
theorem stop_ca_server_no_pid (killRC : Int) :
    CockroachManager.stop_ca_server none killRC
      = ⟨false, false, none⟩ := rfl

open MigrationManager in
theorem pendingScan_fst_eq_filterMap (cur : Nat) :
    ∀ l : List Stem,
      (pendingScan cur l).1
        = l.filterMap (fun s => match stemVersion s with
            | some v => if (cur : Int) < v then some (v, s) else none
            | none => none) := by
  intro l
  induction l with
  | nil => rfl
  | cons a rest ih =>
    cases ha : stemVersion a with
    | none => simp [pendingScan, ha, List.filterMap_cons, ih]
    | some w =>
      by_cases hw : (cur : Int) < w <;>
        simp [pendingScan, ha, hw, List.filterMap_cons, ih]

open MigrationManager in
theorem pendingScan_snd_eq_filter (cur : Nat) :
    ∀ l : List Stem,
      (pendingScan cur l).2 = l.filter (fun s => (stemVersion s).isNone) := by
  intro l
  induction l with
  | nil => rfl
  | cons a rest ih =>
    cases ha : stemVersion a with
    | none => simp [pendingScan, ha, List.filter_cons, ih]
    | some w =>
      by_cases hw : (cur : Int) < w <;>
        simp [pendingScan, ha, hw, List.filter_cons, ih]

open MigrationManager in
theorem pendingScan_fst_mem (cur : Nat) (l : List Stem) (v : Int) (s : Stem) :
    (v, s) ∈ (pendingScan cur l).1 ↔
      s ∈ l ∧ stemVersion s = some v ∧ (cur : Int) < v := by
  rw [pendingScan_fst_eq_filterMap, List.mem_filterMap]
  constructor
  · rintro ⟨a, ha, hfa⟩
    cases hv : stemVersion a with
    | none => rw [hv] at hfa; cases hfa
    | some w =>
      simp only [hv] at hfa
      by_cases hw : (cur : Int) < w
      · rw [if_pos hw] at hfa
        obtain ⟨hvw, has⟩ := Prod.mk.inj (Option.some.inj hfa)
        subst hvw
        subst has
        exact ⟨ha, hv, hw⟩
      · rw [if_neg hw] at hfa; cases hfa
  · rintro ⟨hs, hv, hcur⟩
    exact ⟨s, hs, by simp only [hv, if_pos hcur]⟩

open MigrationManager in
theorem pendingScan_snd_mem (cur : Nat) (l : List Stem) (s : Stem) :
    s ∈ (pendingScan cur l).2 ↔ s ∈ l ∧ stemVersion s = none := by
  rw [pendingScan_snd_eq_filter, List.mem_filter, Option.isNone_iff_eq_none]

open MigrationManager in
theorem insertionSort_name_eq {l1 l2 : List MigrationManager.Stem}
    (h : l1.Perm l2) :
    List.insertionSort nameLe l1 = List.insertionSort nameLe l2 :=
  List.eq_of_perm_of_sorted
    (((List.perm_insertionSort nameLe l1).trans h).trans
      (List.perm_insertionSort nameLe l2).symm)
    (List.sorted_insertionSort nameLe l1) (List.sorted_insertionSort nameLe l2)

open MigrationManager in
theorem get_pending_fst_mem (cur : Nat) (stems : List Stem) (v : Int) (s : Stem) :
    (v, s) ∈ (get_pending_migrations cur stems).1 ↔
      s ∈ stems ∧ stemVersion s = some v ∧ (cur : Int) < v := by
  show (v, s) ∈ List.insertionSort verLe
      (pendingScan cur (List.insertionSort nameLe stems)).1 ↔ _
  rw [(List.perm_insertionSort verLe _).mem_iff, pendingScan_fst_mem,
    (List.perm_insertionSort nameLe stems).mem_iff]

open MigrationManager in
theorem get_pending_snd_mem (cur : Nat) (stems : List Stem) (s : Stem) :
    s ∈ (get_pending_migrations cur stems).2 ↔
      s ∈ stems ∧ stemVersion s = none := by
  show s ∈ (pendingScan cur (List.insertionSort nameLe stems)).2 ↔ _
  rw [pendingScan_snd_mem, (List.perm_insertionSort nameLe stems).mem_iff]

open MigrationManager in
theorem get_pending_sorted (cur : Nat) (stems : List Stem) :
    List.Sorted verLe (get_pending_migrations cur stems).1 :=
  List.sorted_insertionSort verLe _

open MigrationManager in
theorem get_pending_versions_sorted (cur : Nat) (stems : List Stem) :
    List.Pairwise (· ≤ ·) ((get_pending_migrations cur stems).1.map Prod.fst) :=
  List.pairwise_map.mpr ((get_pending_sorted cur stems).imp (fun h => h))

open MigrationManager in
theorem get_pending_perm_eq (cur : Nat) {l1 l2 : List Stem} (h : l1.Perm l2) :
    get_pending_migrations cur l1 = get_pending_migrations cur l2 := by
  unfold get_pending_migrations
  rw [insertionSort_name_eq h]

/-- C2 counterexample: the claim asserts that every file whose prefix does
not parse as a valid non-negative integer is skipped with a warning; the file
"-3_x.sql" has a prefix that int() parses as the negative integer -3 — not a
valid non-negative version — yet the loop skips it silently through the
version comparison, and the warned list stays empty. -/
theorem get_pending_warning_counterexample :
    MigrationManager.stemVersion (toPy "-3_x") = some (-3) ∧
    ¬ (0 : Int) ≤ -3 ∧
    MigrationManager.get_pending_migrations 0 [toPy "-3_x"] = ([], []) := by
  decide

/-- C2 amended: get_pending_migrations returns exactly the files whose prefix
int()-parses to a version strictly greater than the current version, sorted
ascending by version, and its result is independent of the filesystem
iteration order; files whose prefix fails to parse as an integer are the ones
skipped with a warning (and never cause failure), while files whose prefix
parses to a version not above the current one — including negative ones — are
skipped silently. -/
theorem get_pending_migrations_spec (cur : Nat)
    (l1 l2 : List MigrationManager.Stem) (h : l1.Perm l2) :
    MigrationManager.get_pending_migrations cur l1
      = MigrationManager.get_pending_migrations cur l2 ∧
    (∀ (v : Int) (s : MigrationManager.Stem),
      (v, s) ∈ (MigrationManager.get_pending_migrations cur l1).1 ↔
        s ∈ l1 ∧ MigrationManager.stemVersion s = some v ∧ (cur : Int) < v) ∧
    List.Pairwise (· ≤ ·)
      ((MigrationManager.get_pending_migrations cur l1).1.map Prod.fst) ∧
    (∀ s : MigrationManager.Stem,
      s ∈ (MigrationManager.get_pending_migrations cur l1).2 ↔
        s ∈ l1 ∧ MigrationManager.stemVersion s = none) :=
  ⟨get_pending_perm_eq cur h,
   fun v s => get_pending_fst_mem cur l1 v s,
   get_pending_versions_sorted cur l1,
   fun s => get_pending_snd_mem cur l1 s⟩

/-- Witness for C2 (amended): the spec scenario — 001_init.sql, 002_users.sql
and bad_name.sql with current version 0 — presented in two different
filesystem orders. -/
theorem get_pending_migrations_spec_witness :
    ([toPy "002_users", toPy "001_init", toPy "bad_name"]).Perm
      [toPy "bad_name", toPy "001_init", toPy "002_users"] ∧
    (MigrationManager.get_pending_migrations 0
        [toPy "002_users", toPy "001_init", toPy "bad_name"]
      = MigrationManager.get_pending_migrations 0
        [toPy "bad_name", toPy "001_init", toPy "002_users"] ∧
    (∀ (v : Int) (s : MigrationManager.Stem),
      (v, s) ∈ (MigrationManager.get_pending_migrations 0
          [toPy "002_users", toPy "001_init", toPy "bad_name"]).1 ↔
        s ∈ [toPy "002_users", toPy "001_init", toPy "bad_name"] ∧
          MigrationManager.stemVersion s = some v ∧ (0 : Int) < v) ∧
    List.Pairwise (· ≤ ·)
      ((MigrationManager.get_pending_migrations 0
          [toPy "002_users", toPy "001_init", toPy "bad_name"]).1.map Prod.fst) ∧
    (∀ s : MigrationManager.Stem,
      s ∈ (MigrationManager.get_pending_migrations 0
          [toPy "002_users", toPy "001_init", toPy "bad_name"]).2 ↔
        s ∈ [toPy "002_users", toPy "001_init", toPy "bad_name"] ∧
          MigrationManager.stemVersion s = none)) :=
  ⟨by decide, get_pending_migrations_spec 0 _ _ (by decide)⟩

open MigrationManager in
theorem pendingScan_fst_map_nodup (cur : Nat) :
    ∀ l : List Stem, l.Nodup →
      (∀ s ∈ l, ∀ t ∈ l, stemVersion s = stemVersion t →
        stemVersion s = none ∨ s = t) →
      ((pendingScan cur l).1.map Prod.fst).Nodup := by
  intro l
  induction l with
  | nil => intro _ _; simp [pendingScan]
  | cons a rest ih =>
    intro hnd hver
    obtain ⟨hna, hndr⟩ := List.nodup_cons.mp hnd
    have hver' : ∀ s ∈ rest, ∀ t ∈ rest, stemVersion s = stemVersion t →
        stemVersion s = none ∨ s = t :=
      fun s hs t ht => hver s (List.mem_cons_of_mem _ hs) t (List.mem_cons_of_mem _ ht)
    cases ha : stemVersion a with
    | none =>
      simp only [pendingScan, ha]
      exact ih hndr hver'
    | some w =>
      by_cases hw : (cur : Int) < w
      · simp only [pendingScan, ha, if_pos hw, List.map_cons]
        rw [List.nodup_cons]
        refine ⟨?_, ih hndr hver'⟩
        intro hmem
        obtain ⟨⟨v, t⟩, hpt, hfst⟩ := List.mem_map.mp hmem
        obtain ⟨ht, hvt, _⟩ := (pendingScan_fst_mem cur rest v t).mp hpt
        have heq : stemVersion a = stemVersion t := by
          rw [ha, hvt]
          exact congrArg some hfst.symm
        rcases hver a (List.mem_cons_self a rest) t (List.mem_cons_of_mem _ ht) heq with
          hnone | hat
        · rw [ha] at hnone; cases hnone
        · exact hna (hat ▸ ht)
      · simp only [pendingScan, ha, if_neg hw]
        exact ih hndr hver'

open MigrationManager in
theorem get_pending_versions_nodup (cur : Nat) (stems : List Stem)
    (hnd : stems.Nodup)
    (hver : ∀ s ∈ stems, ∀ t ∈ stems, stemVersion s = stemVersion t →
      stemVersion s = none ∨ s = t) :
    ((get_pending_migrations cur stems).1.map Prod.fst).Nodup := by
  have hsortnd : (List.insertionSort nameLe stems).Nodup :=
    ((List.perm_insertionSort nameLe stems).nodup_iff).mpr hnd
  have hsortver : ∀ s ∈ List.insertionSort nameLe stems,
      ∀ t ∈ List.insertionSort nameLe stems,
      stemVersion s = stemVersion t → stemVersion s = none ∨ s = t :=
    fun s hs t ht =>
      hver s ((List.perm_insertionSort nameLe stems).mem_iff.mp hs)
        t ((List.perm_insertionSort nameLe stems).mem_iff.mp ht)
  have hscan := pendingScan_fst_map_nodup cur _ hsortnd hsortver
  have hperm : ((List.insertionSort verLe
        (pendingScan cur (List.insertionSort nameLe stems)).1).map Prod.fst).Perm
      ((pendingScan cur (List.insertionSort nameLe stems)).1.map Prod.fst) :=
    (List.perm_insertionSort verLe _).map Prod.fst
  exact hperm.nodup_iff.mpr hscan

/-- C7 counterexample: the claim asserts unique, strictly increasing versions
for every set of migration files; the directory 001_a.sql, 001_b.sql with
current version 0 yields the version sequence [1, 1], which is neither. -/
theorem pending_versions_counterexample :
    (MigrationManager.get_pending_migrations 0
        [toPy "001_a", toPy "001_b"]).1.map Prod.fst = [1, 1] ∧
    ¬ ((MigrationManager.get_pending_migrations 0
        [toPy "001_a", toPy "001_b"]).1.map Prod.fst).Nodup ∧
    ¬ List.Pairwise (· < ·)
      ((MigrationManager.get_pending_migrations 0
        [toPy "001_a", toPy "001_b"]).1.map Prod.fst) := by
  decide

/-- C7 amended: the versions in the sequence produced by
get_pending_migrations are always sorted in ascending order, and when the
migration files are distinct and no two of them carry the same parsed version
prefix, the versions are unique and strictly increasing, so a migration run
applies neither duplicate versions nor versions out of order. -/
theorem pending_versions_strictly_increasing (cur : Nat)
    (stems : List MigrationManager.Stem) (hnd : stems.Nodup)
    (hver : ∀ s ∈ stems, ∀ t ∈ stems,
      MigrationManager.stemVersion s = MigrationManager.stemVersion t →
      MigrationManager.stemVersion s = none ∨ s = t) :
    List.Pairwise (· < ·)
      ((MigrationManager.get_pending_migrations cur stems).1.map Prod.fst) :=
  List.Sorted.lt_of_le (get_pending_versions_sorted cur stems)
    (get_pending_versions_nodup cur stems hnd hver)

/-- Witness for C7 (amended): two distinct files with distinct versions. -/
theorem pending_versions_strictly_increasing_witness :
    (([toPy "001_a", toPy "002_b"] : List MigrationManager.Stem).Nodup ∧
     (∀ s ∈ ([toPy "001_a", toPy "002_b"] : List MigrationManager.Stem),
       ∀ t ∈ ([toPy "001_a", toPy "002_b"] : List MigrationManager.Stem),
       MigrationManager.stemVersion s = MigrationManager.stemVersion t →
       MigrationManager.stemVersion s = none ∨ s = t)) ∧
    List.Pairwise (· < ·)
      ((MigrationManager.get_pending_migrations 0
        [toPy "001_a", toPy "002_b"]).1.map Prod.fst) :=
  ⟨⟨by decide, by decide⟩,
   pending_versions_strictly_increasing 0 _ (by decide) (by decide)⟩

open MigrationManager in
theorem migrateGo_attempted_mem (apply : Int → Stem → Bool) :
    ∀ l : List (Int × Stem), ∀ p ∈ (migrateGo apply l).1, p ∈ l := by
  intro l
  induction l with
  | nil => intro p hp; simp [migrateGo] at hp
  | cons q rest ih =>
    obtain ⟨v, f⟩ := q
    intro p hp
    cases hap : apply v f with
    | true =>
      simp only [migrateGo, hap, if_true] at hp
      rcases List.mem_cons.mp hp with h | h
      · exact h ▸ List.mem_cons_self _ _
      · exact List.mem_cons_of_mem _ (ih p h)
    | false =>
      simp only [migrateGo, hap, if_false] at hp
      have h := List.mem_singleton.mp hp
      exact h ▸ List.mem_cons_self _ _

open MigrationManager in
theorem migrateGo_halt_mem (apply : Int → Stem → Bool) :
    ∀ (l : List (Int × Stem)) (v : Int), (migrateGo apply l).2 = some v →
      ∃ f, (v, f) ∈ (migrateGo apply l).1 ∧ apply v f = false := by
  intro l
  induction l with
  | nil => intro v h; simp [migrateGo] at h
  | cons q rest ih =>
    obtain ⟨w, f⟩ := q
    intro v h
    cases hap : apply w f with
    | true =>
      simp only [migrateGo, hap, if_true] at h ⊢
      obtain ⟨g, hg, hfg⟩ := ih v h
      exact ⟨g, List.mem_cons_of_mem _ hg, hfg⟩
    | false =>
      simp only [migrateGo, hap, if_false] at h ⊢
      obtain rfl := Option.some.inj h
      exact ⟨f, List.mem_singleton.mpr rfl, hap⟩

open MigrationManager in
theorem migrateGo_version_bound (apply : Int → Stem → Bool) :
    ∀ l : List (Int × Stem), List.Sorted verLe l →
      ∀ v : Int, (migrateGo apply l).2 = some v →
        ∀ p ∈ (migrateGo apply l).1, p.1 ≤ v := by
  intro l
  induction l with
  | nil => intro _ v h; simp [migrateGo] at h
  | cons q rest ih =>
    obtain ⟨w, f⟩ := q
    intro hsort v h p hp
    have hsr : List.Sorted verLe rest := hsort.of_cons
    have hhead : ∀ q' ∈ rest, verLe (w, f) q' := List.rel_of_sorted_cons hsort
    cases hap : apply w f with
    | true =>
      simp only [migrateGo, hap, if_true] at h hp
      rcases List.mem_cons.mp hp with hpeq | hpmem
      · obtain ⟨g, hg, _⟩ := migrateGo_halt_mem apply rest v h
        have hvg : (v, g) ∈ rest := migrateGo_attempted_mem apply rest _ hg
        have hwv : w ≤ v := hhead (v, g) hvg
        rw [hpeq]
        exact hwv
      · exact ih hsr v h p hpmem
    | false =>
      simp only [migrateGo, hap, if_false] at h hp
      obtain rfl := Option.some.inj h
      have h := List.mem_singleton.mp hp
      rw [h]

open MigrationManager in
theorem migrateGo_attempted_front (apply : Int → Stem → Bool) :
    ∀ l : List (Int × Stem), ∃ t, (migrateGo apply l).1 ++ t = l := by
  intro l
  induction l with
  | nil => exact ⟨[], rfl⟩
  | cons q rest ih =>
    obtain ⟨v, f⟩ := q
    cases hap : apply v f with
    | true =>
      obtain ⟨t, ht⟩ := ih
      refine ⟨t, ?_⟩
      simp only [migrateGo, hap, if_true, List.cons_append, ht]
    | false =>
      refine ⟨rest, ?_⟩
      simp [migrateGo, hap]

open MigrationManager in
theorem migrateRun_spec (apply : Int → Stem → Bool)
    (pending : List (Int × Stem)) (hsort : List.Sorted verLe pending) (v : Int)
    (h : (migrateRun apply pending).halted = some v) :
    (migrateRun apply pending).success = false ∧
    (∃ t, (migrateRun apply pending).attempted ++ t = pending) ∧
    List.Pairwise (· ≤ ·) ((migrateRun apply pending).attempted.map Prod.fst) ∧
    (∃ f, (v, f) ∈ (migrateRun apply pending).attempted ∧ apply v f = false) ∧
    (∀ p ∈ pending, v < p.1 → p ∉ (migrateRun apply pending).attempted) := by
  cases pending with
  | nil => simp [migrateRun] at h
  | cons q qs =>
    have h' : (migrateGo apply (q :: qs)).2 = some v := h
    obtain ⟨t, ht⟩ := migrateGo_attempted_front apply (q :: qs)
    have hsub : List.Sublist (migrateGo apply (q :: qs)).1 (q :: qs) := by
      have hs := List.sublist_append_left (migrateGo apply (q :: qs)).1 t
      rw [ht] at hs
      exact hs
    refine ⟨?_, ⟨t, ht⟩, ?_, ?_, ?_⟩
    · show (migrateGo apply (q :: qs)).2.isNone = false
      rw [h']
      rfl
    · exact List.pairwise_map.mpr ((hsort.sublist hsub).imp (fun hab => hab))
    · exact migrateGo_halt_mem apply (q :: qs) v h'
    · intro p hp hlt hmem
      have hb : p.1 ≤ v := migrateGo_version_bound apply (q :: qs) hsort v h' p hmem
      omega

/-- C1: migrate attempts the pending migrations as an initial segment of the
ascending sequence produced by get_pending_migrations (so in ascending
version order) and is fail-fast: whenever the run halts reporting version v,
the overall result is failure, apply_migration failed on the reported version
v, and no pending migration with version greater than v was attempted at
all — in particular, applying pending versions [1, 2, 3] where 2 fails leaves
3 unattempted (see the witness). -/
theorem migrate_fail_fast (apply : Int → MigrationManager.Stem → Bool)
    (cur : Nat) (stems : List MigrationManager.Stem) (v : Int)
    (h : (MigrationManager.migrate apply cur stems).halted = some v) :
    (MigrationManager.migrate apply cur stems).success = false ∧
    (∃ t, (MigrationManager.migrate apply cur stems).attempted ++ t
      = (MigrationManager.get_pending_migrations cur stems).1) ∧
    List.Pairwise (· ≤ ·)
      ((MigrationManager.migrate apply cur stems).attempted.map Prod.fst) ∧
    (∃ f, (v, f) ∈ (MigrationManager.migrate apply cur stems).attempted ∧
      apply v f = false) ∧
    (∀ (w : Int) (f : MigrationManager.Stem),
      (w, f) ∈ (MigrationManager.get_pending_migrations cur stems).1 → v < w →
      (w, f) ∉ (MigrationManager.migrate apply cur stems).attempted) := by
  have h' : (MigrationManager.migrateRun apply
      (MigrationManager.get_pending_migrations cur stems).1).halted = some v := h
  obtain ⟨h1, h2, h3, h4, h5⟩ :=
    migrateRun_spec apply _ (get_pending_sorted cur stems) v h'
  exact ⟨h1, h2, h3, h4, fun w f hwf hlt => h5 (w, f) hwf hlt⟩

/-- Witness for C1: the spec scenario of pending migrations 1, 2, 3 where
migration 2 fails — the run halts at 2, attempts exactly [1, 2], and leaves
migration 3 unapplied. -/
theorem migrate_fail_fast_witness :
    ((MigrationManager.migrate (fun w _ => decide (w ≠ 2)) 0
        [toPy "001_a", toPy "002_b", toPy "003_c"]).halted = some 2 ∧
      (MigrationManager.migrate (fun w _ => decide (w ≠ 2)) 0
        [toPy "001_a", toPy "002_b", toPy "003_c"]).attempted
        = [(1, toPy "001_a"), (2, toPy "002_b")]) ∧
    ((MigrationManager.migrate (fun w _ => decide (w ≠ 2)) 0
        [toPy "001_a", toPy "002_b", toPy "003_c"]).success = false ∧
     (∃ t, (MigrationManager.migrate (fun w _ => decide (w ≠ 2)) 0
          [toPy "001_a", toPy "002_b", toPy "003_c"]).attempted ++ t
        = (MigrationManager.get_pending_migrations 0
          [toPy "001_a", toPy "002_b", toPy "003_c"]).1) ∧
     List.Pairwise (· ≤ ·)
       ((MigrationManager.migrate (fun w _ => decide (w ≠ 2)) 0
          [toPy "001_a", toPy "002_b", toPy "003_c"]).attempted.map Prod.fst) ∧
     (∃ f, (2, f) ∈ (MigrationManager.migrate (fun w _ => decide (w ≠ 2)) 0
          [toPy "001_a", toPy "002_b", toPy "003_c"]).attempted ∧
        (fun (w : Int) (_ : MigrationManager.Stem) => decide (w ≠ 2)) 2 f
          = false) ∧
     (∀ (w : Int) (f : MigrationManager.Stem),
       (w, f) ∈ (MigrationManager.get_pending_migrations 0
          [toPy "001_a", toPy "002_b", toPy "003_c"]).1 → 2 < w →
       (w, f) ∉ (MigrationManager.migrate (fun w _ => decide (w ≠ 2)) 0
          [toPy "001_a", toPy "002_b", toPy "003_c"]).attempted)) :=
  ⟨⟨by decide, by decide⟩, migrate_fail_fast _ 0 _ 2 (by decide)⟩

theorem isDigitChar_not_space {c : Char} (h : isDigitChar c = true) :
    isSpaceChar c = false := by
  have h' := h
  simp only [isDigitChar, Bool.and_eq_true, decide_eq_true_eq] at h'
  obtain ⟨h0, _⟩ := h'
  cases hs : isSpaceChar c with
  | false => rfl
  | true =>
    simp only [isSpaceChar, Bool.or_eq_true, decide_eq_true_eq] at hs
    rcases hs with ((rfl | rfl) | rfl) | rfl <;> exact absurd h0 (by decide)

theorem dropWhile_space_eq_self {l : List Char}
    (h : ∀ c ∈ l, isDigitChar c = true) :
    l.dropWhile isSpaceChar = l := by
  cases l with
  | nil => rfl
  | cons a t =>
    rw [List.dropWhile_cons, if_neg]
    rw [isDigitChar_not_space (h a (List.mem_cons_self a t))]
    simp

theorem pyStripWs_digits_eq_self {p : List Char}
    (h : ∀ c ∈ p, isDigitChar c = true) :
    pyStripWs p = p := by
  unfold pyStripWs
  rw [dropWhile_space_eq_self h]
  rw [dropWhile_space_eq_self (fun c hc => h c (List.mem_reverse.mp hc))]
  exact List.reverse_reverse p

theorem digit_prefix_parse {p : List Char} (h : pyIsDigit p = true) :
    pyParseInt p = some ((digitsVal p : Int)) := by
  have h' := h
  simp only [pyIsDigit, Bool.and_eq_true] at h'
  obtain ⟨hne, hall⟩ := h'
  have hmem : ∀ c ∈ p, isDigitChar c = true := fun c hc =>
    List.all_eq_true.mp hall c hc
  cases hp : p with
  | nil => rw [hp] at hne; simp at hne
  | cons c rest =>
    subst hp
    have hc : isDigitChar c = true := hmem c (List.mem_cons_self c rest)
    have h0 : '0' ≤ c := by
      simp only [isDigitChar, Bool.and_eq_true, decide_eq_true_eq] at hc
      exact hc.1
    have hplus : ¬ (c = '+') := fun hh => absurd h0 (by rw [hh]; decide)
    have hminus : ¬ (c = '-') := fun hh => absurd h0 (by rw [hh]; decide)
    unfold pyParseInt
    rw [pyStripWs_digits_eq_self hmem]
    simp only [if_neg hplus, if_neg hminus, if_pos h]

theorem le_foldl_max_init : ∀ (ms : List Nat) (b : Nat), b ≤ ms.foldl max b := by
  intro ms
  induction ms with
  | nil => intro b; exact le_refl b
  | cons m t ih =>
    intro b
    calc b ≤ max b m := le_max_left b m
    _ ≤ t.foldl max (max b m) := ih (max b m)

theorem mem_le_foldl_max : ∀ (ns : List Nat) (n x : Nat), x ∈ n :: ns →
    x ≤ ns.foldl max n := by
  intro ns
  induction ns with
  | nil =>
    intro n x hx
    simp [List.mem_singleton.mp hx]
  | cons m t ih =>
    intro n x hx
    rcases List.mem_cons.mp hx with rfl | hx'
    · calc x ≤ max x m := le_max_left x m
      _ ≤ t.foldl max (max x m) := le_foldl_max_init t (max x m)
    · rcases List.mem_cons.mp hx' with rfl | hx'
      · calc x ≤ max n x := le_max_right n x
        _ ≤ t.foldl max (max n x) := le_foldl_max_init t (max n x)
      · exact ih (max n m) x (List.mem_cons_of_mem _ hx')

open MigrationManager in
theorem create_migration_eq_nonempty (cur : Nat) (stems : List Stem)
    (name : List Char) (hne : stems.isEmpty = false) (n : Nat) (ns : List Nat)
    (hn : stems.filterMap (fun f => if pyIsDigit (stemPrefix f)
        then some (digitsVal (stemPrefix f)) else none) = n :: ns) :
    create_migration cur stems name
      = some (max (cur + 1) (ns.foldl max n + 1),
          pad3 (max (cur + 1) (ns.foldl max n + 1)) ++ '_' :: name) := by
  unfold create_migration
  rw [hne]
  simp only [Bool.false_eq_true, if_false, hn]

open MigrationManager in
theorem create_migration_eq_none (cur : Nat) (stems : List Stem)
    (name : List Char) (hne : stems.isEmpty = false)
    (hn : stems.filterMap (fun f => if pyIsDigit (stemPrefix f)
        then some (digitsVal (stemPrefix f)) else none) = []) :
    create_migration cur stems name = none := by
  unfold create_migration
  rw [hne]
  simp only [Bool.false_eq_true, if_false, hn]

/-- C4 counterexample: the claim asserts the returned filepath's version
never collides with the version prefix of any existing migration file; with
current version 0 and files 004_a.sql and +5_x.sql, create_migration returns
version 5 (its isdigit scan ignores the signed prefix "+5" and only sees 4),
while get_pending_migrations parses "+5_x.sql" as version 5 — a collision. -/
theorem create_migration_counterexample :
    MigrationManager.create_migration 0 [toPy "004_a", toPy "+5_x"] (toPy "y")
      = some (5, toPy "005_y") ∧
    MigrationManager.stemVersion (toPy "+5_x") = some 5 ∧
    pyIsDigit (MigrationManager.stemPrefix (toPy "+5_x")) = false := by
  decide

/-- C4 amended: whenever create_migration returns a filepath, its version is
max(currentVersion + 1, highestAllDigitPrefix + 1), which exceeds the current
version and the parsed version of every existing file whose prefix consists
only of digits, so it never collides with those versions; a file whose prefix
only int()-parses thanks to an explicit sign or surrounding whitespace is
invisible to the isdigit scan, and its version can be reused. -/
theorem create_migration_spec (cur : Nat)
    (stems : List MigrationManager.Stem) (name : List Char) (v : Nat)
    (fstem : MigrationManager.Stem)
    (h : MigrationManager.create_migration cur stems name = some (v, fstem)) :
    cur < v ∧
    fstem = MigrationManager.pad3 v ++ '_' :: name ∧
    (∀ f ∈ stems, pyIsDigit (MigrationManager.stemPrefix f) = true →
      digitsVal (MigrationManager.stemPrefix f) < v) ∧
    (∀ f ∈ stems, pyIsDigit (MigrationManager.stemPrefix f) = true →
      MigrationManager.stemVersion f ≠ some ((v : Int))) := by
  have main : cur < v ∧ fstem = MigrationManager.pad3 v ++ '_' :: name ∧
      (∀ f ∈ stems, pyIsDigit (MigrationManager.stemPrefix f) = true →
        digitsVal (MigrationManager.stemPrefix f) < v) := by
    by_cases hemp : stems.isEmpty
    · unfold MigrationManager.create_migration at h
      rw [hemp] at h
      simp only [if_true] at h
      obtain ⟨hv, hf⟩ := Prod.mk.inj (Option.some.inj h)
      subst hv
      refine ⟨Nat.lt_succ_self cur, hf.symm, ?_⟩
      intro f hf' _
      rw [List.isEmpty_iff.mp hemp] at hf'
      cases hf'
    · have hne : stems.isEmpty = false := Bool.not_eq_true _ ▸ (by simpa using hemp)
      cases hn : stems.filterMap (fun f => if pyIsDigit (MigrationManager.stemPrefix f)
          then some (digitsVal (MigrationManager.stemPrefix f)) else none) with
      | nil =>
        rw [create_migration_eq_none cur stems name hne hn] at h
        cases h
      | cons n ns =>
        rw [create_migration_eq_nonempty cur stems name hne n ns hn] at h
        obtain ⟨hv, hf⟩ := Prod.mk.inj (Option.some.inj h)
        refine ⟨?_, ?_, ?_⟩
        · omega
        · rw [← hv]; exact hf.symm
        · intro f hfs hdig
          have hmemfm : digitsVal (MigrationManager.stemPrefix f) ∈ n :: ns := by
            rw [← hn]
            exact List.mem_filterMap.mpr ⟨f, hfs, by rw [if_pos hdig]⟩
          have hle : digitsVal (MigrationManager.stemPrefix f) ≤ ns.foldl max n :=
            mem_le_foldl_max ns n _ hmemfm
          omega
  obtain ⟨h1, h2, h3⟩ := main
  refine ⟨h1, h2, h3, ?_⟩
  intro f hfs hdig heq
  have hp : MigrationManager.stemVersion f
      = some ((digitsVal (MigrationManager.stemPrefix f) : Int)) :=
    digit_prefix_parse hdig
  rw [hp] at heq
  have : (digitsVal (MigrationManager.stemPrefix f) : Int) = (v : Int) :=
    Option.some.inj heq
  have : digitsVal (MigrationManager.stemPrefix f) = v := Int.ofNat.inj this
  have := h3 f hfs hdig
  omega

/-- Witness for C4 (amended): current version 2 with files 001_a.sql and
004_b.sql yields version 5 = max(2 + 1, 4 + 1), above both digit prefixes. -/
theorem create_migration_spec_witness :
    MigrationManager.create_migration 2 [toPy "001_a", toPy "004_b"] (toPy "x")
      = some (5, toPy "005_x") ∧
    (2 < 5 ∧
     toPy "005_x" = MigrationManager.pad3 5 ++ '_' :: toPy "x" ∧
     (∀ f ∈ [toPy "001_a", toPy "004_b"],
       pyIsDigit (MigrationManager.stemPrefix f) = true →
       digitsVal (MigrationManager.stemPrefix f) < 5) ∧
     (∀ f ∈ [toPy "001_a", toPy "004_b"],
       pyIsDigit (MigrationManager.stemPrefix f) = true →
       MigrationManager.stemVersion f ≠ some ((5 : Nat) : Int))) :=
  ⟨by decide, create_migration_spec 2 _ _ 5 _ (by decide)⟩
